import Mathlib

/-!
Verification of the `lmc-interpreter` repository (a Little Man Computer
translator and execution engine written in TypeScript) against its
natural-language specification.

The development shallowly embeds the two core source files:

* `src/common/Opcodes.ts` — the opcode and I/O-mode constants;
* `src/interpreter/Interpreter.ts` — the execution engine (registers,
  memory, the fetch/decode/execute `step`, the `encode`/`decode` codec,
  and `initialise`);
* `src/parser/Parser.ts` — the translator (tokenisation, the first-pass
  line classifier, label table handling, and the second resolution pass).

JavaScript numbers are modelled as unbounded `Int`; the bitwise operators
used by the codec coerce through 32-bit two's complement exactly as the
ECMAScript `ToInt32`/`ToUint32` conversions do, which is captured by the
`toUint32`/`toInt32` helpers below.  A JavaScript array is an index→value
map in which reading an unset index yields `undefined` and writing past the
current length leaves holes; memory is therefore a `List (Option Int)`
whose `none` cells stand for `undefined`/holes, with `cellGet`/`cellSet`
reproducing the read/write semantics (writes past the end pad with holes).
-/

/-! ## 32-bit coercions and the JavaScript bitwise operators -/

/-- ECMAScript `ToUint32` restricted to integer inputs: the value modulo 2^32. -/
def toUint32 (x : Int) : Nat := (x % (4294967296 : Int)).toNat

/-- ECMAScript `ToInt32` restricted to integer inputs: two's-complement
reinterpretation of the low 32 bits. -/
def toInt32 (x : Int) : Int :=
  let u := toUint32 x
  if u < 2147483648 then (u : Int) else (u : Int) - 4294967296

/-- JavaScript `a & b` on integer operands. -/
def jsAnd (a b : Int) : Int := toInt32 ((Nat.land (toUint32 a) (toUint32 b) : Nat) : Int)

/-- JavaScript `a | b` on integer operands. -/
def jsOr (a b : Int) : Int := toInt32 ((Nat.lor (toUint32 a) (toUint32 b) : Nat) : Int)

/-- JavaScript `a << b` on integer operands (shift count taken mod 32). -/
def jsShl (a b : Int) : Int :=
  toInt32 ((Nat.shiftLeft (toUint32 a) (toUint32 b % 32) : Nat) : Int)

/-- JavaScript `a >> b` (sign-propagating right shift) on integer operands;
an arithmetic shift of a 32-bit value is floor division by a power of two. -/
def jsShr (a b : Int) : Int := Int.fdiv (toInt32 a) ((2 : Int) ^ (toUint32 b % 32))

/-! ## `src/common/Opcodes.ts` -/

namespace Opcode

def HLT : Int := 0
def ADD : Int := 1
def SUB : Int := 2
def STA : Int := 3
def ERR : Int := 4
def LDA : Int := 5
def BRA : Int := 6
def BRZ : Int := 7
def BRP : Int := 8
def INP : Int := 9
/-- `OUT = INP` in the enum. -/
def OUT : Int := INP
/-- `OTC = INP` in the enum. -/
def OTC : Int := INP
def DAT : Int := 10

end Opcode

namespace IOCode

def INPUT : Int := 1
def OUTPUT : Int := 2
/-- `CHAR = 22 // OTC` -/
def CHAR : Int := 22

end IOCode

/-! ## Instructions and the codec (`Interpreter.encode` / `Interpreter.decode`)

`Instruction` is `{ opcode: Opcode, operand?: number }`; the optional
operand is an `Option Int`, `none` standing for an absent (`undefined`)
field. -/

structure Instruction where
  opcode : Int
  operand : Option Int
deriving DecidableEq, Repr

/-- `encode`: `(instruction.opcode << 8) | (instruction.operand || 0)`.
`operand || 0` maps both `undefined` and `0` to `0` and keeps any other
number, which is `Option.getD 0` on integer operands. -/
def encode (instruction : Instruction) : Int :=
  jsOr (jsShl instruction.opcode 8) (instruction.operand.getD 0)

/-- `decode`: `{ opcode: (raw & 0xFF00) >> 8, operand: raw & 0x00FF }`. -/
def decode (rawInstruction : Int) : Instruction :=
  { opcode := jsShr (jsAnd rawInstruction 65280) 8
    operand := some (jsAnd rawInstruction 255) }

/-- The opcode field produced by decoding a memory cell. -/
def decodedOpcode (cell : Int) : Int := (decode cell).opcode

/-- The operand field produced by decoding a memory cell (always present:
`raw & 0x00FF` is never `undefined`). -/
def decodedOperand (cell : Int) : Int := jsAnd cell 255

/-! ## Memory as a JavaScript array

`cellGet mem n` is `mem[n]` (an unset index reads `undefined`, i.e. `none`);
`cellSet mem n v` is `mem[n] = v` (writing past the end pads with holes and
sets the length to `n + 1`, exactly as a JavaScript array assignment does). -/

def cellGet : List (Option Int) → Nat → Option Int
  | [], _ => none
  | c :: _, 0 => c
  | _ :: cs, n + 1 => cellGet cs n

def cellSet : List (Option Int) → Nat → Option Int → List (Option Int)
  | [], 0, v => [v]
  | [], n + 1, v => none :: cellSet [] n v
  | _ :: cs, 0, v => v :: cs
  | c :: cs, n + 1, v => c :: cellSet cs n v

/-- Reading at an `Int` index.  The interpreter only ever indexes with the
program counter and the address register, both of which are non-negative;
a negative index reads an ordinary (absent) object property, i.e. `undefined`. -/
def memGet (mem : List (Option Int)) (i : Int) : Option Int :=
  if i < 0 then none else cellGet mem i.toNat

/-- Writing at an `Int` index.  A negative index would set a non-index object
property, leaving every array cell unchanged; it is unreachable because the
only runtime write (`STA`) uses the decoded operand, which lies in `0..255`. -/
def memSet (mem : List (Option Int)) (i : Int) (v : Option Int) : List (Option Int) :=
  if i < 0 then mem else cellSet mem i.toNat v

/-! ## The interpreter state (`Interpreter`'s fields)

The host callbacks are modelled by state components: `onInput` draws from
the `inputs` stream (the host may return anything; the model reads the head,
defaulting to `0`), and `onOutput` appends to the `outputs` trace, numeric
and character outputs distinguished as in `onOutput(value: string | number)`. -/

inductive OutputEvent where
  | num (value : Int)
  | char (code : Int)
deriving DecidableEq, Repr

structure InterpreterState where
  accumulator : Int
  programCounter : Int
  instructionRegister : Int
  addressRegister : Int
  memory : List (Option Int)
  inputs : List Int
  outputs : List OutputEvent
deriving DecidableEq, Repr

/-- The raw value fetched by `step`: `this.memory[this.programCounter]`,
with `undefined` (out-of-range) and `0` both collapsing to `0`, exactly the
values the `if (!rawInstruction)` falsy test stops on. -/
def fetchCell (s : InterpreterState) : Int := (memGet s.memory s.programCounter).getD 0

/-- The `// Execute` switch of `Interpreter.step`, acting on the state after
fetch, increment and decode.  Reading `this.memory[this.addressRegister]`
out of range yields `undefined` in JavaScript (so the arithmetic would
produce `NaN`); the model reads `0` there — no claim depends on the
accumulator value after such a read. -/
def execute (s : InterpreterState) : Except String (InterpreterState × Bool) :=
  match s.instructionRegister with
  | 0 => -- Opcode.HLT
    Except.ok (s, false)
  | 1 => -- Opcode.ADD
    Except.ok ({ s with accumulator := s.accumulator + (memGet s.memory s.addressRegister).getD 0 }, true)
  | 2 => -- Opcode.SUB
    Except.ok ({ s with accumulator := s.accumulator - (memGet s.memory s.addressRegister).getD 0 }, true)
  | 3 => -- Opcode.STA
    Except.ok ({ s with memory := memSet s.memory s.addressRegister (some s.accumulator) }, true)
  | 4 => -- Opcode.ERR
    Except.error "ERR opcode encountered"
  | 5 => -- Opcode.LDA
    Except.ok ({ s with accumulator := (memGet s.memory s.addressRegister).getD 0 }, true)
  | 6 => -- Opcode.BRA
    Except.ok ({ s with programCounter := s.addressRegister }, true)
  | 7 => -- Opcode.BRZ
    if s.accumulator = 0 then
      Except.ok ({ s with programCounter := s.addressRegister }, true)
    else
      Except.ok (s, true)
  | 8 => -- Opcode.BRP
    if 0 ≤ s.accumulator then
      Except.ok ({ s with programCounter := s.addressRegister }, true)
    else
      Except.ok (s, true)
  | 9 => -- Opcode.INP (the inner switch on the address register I/O sub-mode)
    match s.addressRegister with
    | 1 => -- IOCode.INPUT
      Except.ok ({ s with accumulator := s.inputs.headD 0, inputs := s.inputs.tail }, true)
    | 2 => -- IOCode.OUTPUT
      Except.ok ({ s with outputs := s.outputs ++ [OutputEvent.num s.accumulator] }, true)
    | 22 => -- IOCode.CHAR
      Except.ok ({ s with outputs := s.outputs ++ [OutputEvent.char s.accumulator] }, true)
    | _ => -- no matching sub-mode: fall out of the switch
      Except.ok (s, true)
  | 10 => -- Opcode.DAT: do nothing
    Except.ok (s, true)
  | _ => -- default
    Except.error ("Unknown opcode: " ++ toString s.instructionRegister)

/-- `Interpreter.step`: fetch, falsy test, increment, decode (the decoded
operand is always present, so the address register is always overwritten),
then the execute switch.  A thrown `Error` is an `Except.error`. -/
def step (s : InterpreterState) : Except String (InterpreterState × Bool) :=
  let rawInstruction := fetchCell s
  if rawInstruction = 0 then
    Except.ok (s, false)
  else
    let s1 := { s with programCounter := s.programCounter + 1 }
    let instruction := decode rawInstruction
    let s2 := { s1 with instructionRegister := instruction.opcode }
    let s3 :=
      match instruction.operand with
      | some v => { s2 with addressRegister := v }
      | none => s2
    execute s3

/-- The state at the start of the execute phase, after the program counter
increment and the decode of the fetched cell. -/
def decodedState (s : InterpreterState) : InterpreterState :=
  { s with
    programCounter := s.programCounter + 1
    instructionRegister := decodedOpcode (fetchCell s)
    addressRegister := decodedOperand (fetchCell s) }

deriving instance DecidableEq for Except

/-- The continue flag `step` returned, or `none` when it threw. -/
def continueFlag : Except String (InterpreterState × Bool) → Option Bool
  | Except.ok (_, b) => some b
  | Except.error _ => none

/-- Whether a `step` outcome is a thrown `Error`. -/
def raisesError : Except String (InterpreterState × Bool) → Bool
  | Except.error _ => true
  | Except.ok _ => false

theorem step_of_fetch_zero (s : InterpreterState) (h : fetchCell s = 0) :
    step s = Except.ok (s, false) := by
  simp [step, h]

theorem step_of_fetch_ne_zero (s : InterpreterState) (h : fetchCell s ≠ 0) :
    step s = execute (decodedState s) := by
  simp [step, h, decodedState, decode, decodedOpcode, decodedOperand]

/-! ## Memory access lemmas -/

theorem cellGet_cellSet_nil (n k : Nat) (v : Option Int) :
    cellGet (cellSet [] n v) k = if k = n then v else none := by
  induction n generalizing k with
  | zero => cases k <;> simp [cellSet, cellGet]
  | succ n ih =>
    cases k with
    | zero => simp [cellSet, cellGet]
    | succ k => simp [cellSet, cellGet, ih]

theorem cellGet_cellSet (m : List (Option Int)) (n k : Nat) (v : Option Int) :
    cellGet (cellSet m n v) k = if k = n then v else cellGet m k := by
  induction m generalizing n k with
  | nil =>
    rw [cellGet_cellSet_nil]
    cases k <;> simp [cellGet]
  | cons c cs ih =>
    cases n with
    | zero => cases k <;> simp [cellSet, cellGet]
    | succ n =>
      cases k with
      | zero => simp [cellSet, cellGet]
      | succ k => simp [cellSet, cellGet, ih]

theorem memGet_memSet (m : List (Option Int)) (i j : Int) (v : Option Int) (hi : 0 ≤ i) :
    memGet (memSet m i v) j = if j = i then v else memGet m j := by
  simp only [memSet, if_neg (by omega : ¬ i < 0), memGet]
  by_cases hj : j < 0
  · rw [if_pos hj, if_neg (by omega : ¬ j = i), if_pos hj]
  · rw [if_neg hj, if_neg hj, cellGet_cellSet]
    by_cases hji : j = i
    · rw [if_pos (by omega : j.toNat = i.toNat), if_pos hji]
    · rw [if_neg (by omega : ¬ j.toNat = i.toNat), if_neg hji]

/-! ## Decoded-field bounds -/

theorem toInt32_natCast_small (n : Nat) (h : n < 2147483648) :
    toInt32 ((n : Nat) : Int) = ((n : Nat) : Int) := by
  have h32 : ((n : Nat) : Int) % 4294967296 = ((n : Nat) : Int) :=
    Int.emod_eq_of_lt (by omega) (by omega)
  simp only [toInt32, toUint32, h32]
  split_ifs <;> omega

theorem jsAnd_255_bounds (c : Int) : 0 ≤ jsAnd c 255 ∧ jsAnd c 255 ≤ 255 := by
  have hle : Nat.land (toUint32 c) (toUint32 255) ≤ toUint32 255 := Nat.and_le_right
  have h255 : toUint32 255 = 255 := by decide
  rw [h255] at hle
  have hsmall := toInt32_natCast_small (Nat.land (toUint32 c) 255) (by omega)
  unfold jsAnd
  rw [h255, hsmall]
  omega

theorem decodedOperand_nonneg (c : Int) : 0 ≤ decodedOperand c :=
  (jsAnd_255_bounds c).1

/-! ## Decidability of the spec-side predicates -/

/-- The branch conditions of the execute switch: `BRA` always, `BRZ` when the
accumulator is zero, `BRP` when it is non-negative. -/
def branchTaken (o acc : Int) : Prop :=
  o = Opcode.BRA ∨ (o = Opcode.BRZ ∧ acc = 0) ∨ (o = Opcode.BRP ∧ 0 ≤ acc)

instance (o acc : Int) : Decidable (branchTaken o acc) := by
  unfold branchTaken; infer_instance

/-- The opcode values the execute switch recognises (the members of the
`Opcode` enum). -/
def recognizedOpcode (o : Int) : Prop :=
  o = Opcode.HLT ∨ o = Opcode.ADD ∨ o = Opcode.SUB ∨ o = Opcode.STA ∨ o = Opcode.ERR ∨
  o = Opcode.LDA ∨ o = Opcode.BRA ∨ o = Opcode.BRZ ∨ o = Opcode.BRP ∨ o = Opcode.INP ∨
  o = Opcode.DAT

instance (o : Int) : Decidable (recognizedOpcode o) := by
  unfold recognizedOpcode; infer_instance

/-- The stopping condition of `step`: the fetched cell is falsy (zero or an
out-of-range `undefined`) or it decodes to the halt opcode. -/
def stopCondition (s : InterpreterState) : Prop :=
  fetchCell s = 0 ∨ decodedOpcode (fetchCell s) = Opcode.HLT

instance (s : InterpreterState) : Decidable (stopCondition s) := by
  unfold stopCondition; infer_instance

/-! ## Execute-phase lemmas -/

theorem execute_of_hlt (s : InterpreterState) (h : s.instructionRegister = Opcode.HLT) :
    execute s = Except.ok (s, false) := by
  unfold execute
  rw [h]
  rfl

theorem execute_ok_false (s t : InterpreterState) (h : execute s = Except.ok (t, false)) :
    s.instructionRegister = Opcode.HLT ∧ t = s := by
  replace h := h.symm
  unfold execute at h
  split at h <;> (try split at h) <;> simp_all [Opcode.HLT]

theorem execute_ok_shape (s t : InterpreterState) (b : Bool)
    (h : execute s = Except.ok (t, b)) :
    recognizedOpcode s.instructionRegister ∧ s.instructionRegister ≠ Opcode.ERR := by
  replace h := h.symm
  unfold execute at h
  split at h <;> (try split at h) <;>
    simp_all [recognizedOpcode, Opcode.HLT, Opcode.ADD, Opcode.SUB, Opcode.STA, Opcode.ERR,
      Opcode.LDA, Opcode.BRA, Opcode.BRZ, Opcode.BRP, Opcode.INP, Opcode.DAT]

theorem execute_error_shape (s : InterpreterState) (msg : String)
    (h : execute s = Except.error msg) :
    s.instructionRegister = Opcode.ERR ∨ ¬ recognizedOpcode s.instructionRegister := by
  replace h := h.symm
  unfold execute at h
  split at h <;> (try split at h) <;>
    simp_all [recognizedOpcode, Opcode.HLT, Opcode.ADD, Opcode.SUB, Opcode.STA, Opcode.ERR,
      Opcode.LDA, Opcode.BRA, Opcode.BRZ, Opcode.BRP, Opcode.INP, Opcode.DAT]

theorem execute_pc (s t : InterpreterState) (b : Bool) (h : execute s = Except.ok (t, b)) :
    t.programCounter =
      if branchTaken s.instructionRegister s.accumulator then s.addressRegister
      else s.programCounter := by
  replace h := h.symm
  unfold execute at h
  split at h <;> (try split at h) <;>
    simp_all [branchTaken, Opcode.BRA, Opcode.BRZ, Opcode.BRP] <;>
    (split_ifs <;> omega)

theorem execute_mem (s t : InterpreterState) (b : Bool) (h : execute s = Except.ok (t, b)) :
    t.memory =
      if s.instructionRegister = Opcode.STA then
        memSet s.memory s.addressRegister (some s.accumulator)
      else s.memory := by
  replace h := h.symm
  unfold execute at h
  split at h <;> (try split at h) <;> simp_all [Opcode.STA]

theorem raisesError_continueFlag (r : Except String (InterpreterState × Bool))
    (h : raisesError r = true) : continueFlag r = none := by
  cases r <;> simp_all [raisesError, continueFlag]

/-! ## Loading (`Interpreter.initialise`) -/

structure InterpreterOptions where
  program : List Instruction
  memorySize : Nat
  appendHalt : Bool
deriving DecidableEq, Repr

/-- The constructor's `new Array(options.memorySize).fill(0)`. -/
def initialMemory (memorySize : Nat) : List (Option Int) :=
  List.replicate memorySize (some 0)

/-- The `forEach` load loop of `initialise`: a `DAT` instruction stores its raw
operand (`instruction.operand as number` — which stays `undefined` when the
operand is absent), every other instruction stores its packed encoding. -/
def loadLoop : List Instruction → Nat → List (Option Int) → List (Option Int)
  | [], _, mem => mem
  | instruction :: rest, index, mem =>
    let updated :=
      if instruction.opcode = Opcode.DAT then memSet mem (index : Int) instruction.operand
      else memSet mem (index : Int) (some (encode instruction))
    loadLoop rest (index + 1) updated

/-- `Interpreter.initialise`: load the program, then, when `appendHalt` is set,
write `encode({opcode: Opcode.HLT})` at the cell just after the program. -/
def initialise (options : InterpreterOptions) (mem : List (Option Int)) : List (Option Int) :=
  let loaded := loadLoop options.program 0 mem
  if options.appendHalt then
    memSet loaded (options.program.length : Int)
      (some (encode { opcode := Opcode.HLT, operand := none }))
  else loaded

/-! ## Example states used by the witnesses and counterexamples -/

/-- A state whose cell 0 holds `encode {ERR}` = `4 << 8` = `1024`. -/
def exErrState : InterpreterState :=
  { accumulator := 0, programCounter := 0, instructionRegister := 0, addressRegister := 0
    memory := [some 1024], inputs := [], outputs := [] }

/-- A state whose cell 0 holds `encode {ADD, 0}` = `256`. -/
def exAddState : InterpreterState :=
  { accumulator := 5, programCounter := 0, instructionRegister := 0, addressRegister := 0
    memory := [some 256], inputs := [], outputs := [] }

/-- A state whose cell 0 holds `encode {BRA, 3}` = `6*256+3` = `1539`. -/
def exBraState : InterpreterState :=
  { accumulator := 0, programCounter := 0, instructionRegister := 0, addressRegister := 0
    memory := [some 1539], inputs := [], outputs := [] }

/-- The state `step` produces from `exBraState`. -/
def exBraNext : InterpreterState :=
  { accumulator := 0, programCounter := 3, instructionRegister := 6, addressRegister := 3
    memory := [some 1539], inputs := [], outputs := [] }

/-- A state whose cell 0 holds `encode {STA, 0}` = `3*256` = `768`. -/
def exStaState : InterpreterState :=
  { accumulator := 7, programCounter := 0, instructionRegister := 0, addressRegister := 0
    memory := [some 768], inputs := [], outputs := [] }

/-- The state `step` produces from `exStaState`. -/
def exStaNext : InterpreterState :=
  { accumulator := 7, programCounter := 1, instructionRegister := 3, addressRegister := 0
    memory := [some 7], inputs := [], outputs := [] }

/-- The all-zero state with empty memory (every fetch is `undefined`). -/
def exZeroState : InterpreterState :=
  { accumulator := 0, programCounter := 0, instructionRegister := 0, addressRegister := 0
    memory := [], inputs := [], outputs := [] }

/-- Options loading the single instruction `ADD 2` with `appendHalt` set. -/
def exHaltOptions : InterpreterOptions :=
  { program := [{ opcode := 1, operand := some 2 }], memorySize := 4, appendHalt := true }

/-! ## Claim C1 -/

/-- The property claim C1 asserts of `step`: it returns `false` exactly on a
falsy fetch or a fetch decoding to the halt opcode, and returns `true` in
every other case. -/
def stepFalseClaim : Prop :=
  ∀ s : InterpreterState,
    (continueFlag (step s) = some false ↔ stopCondition s) ∧
    (¬ stopCondition s → continueFlag (step s) = some true)

/-- **C1, counterexample.**  The claim "in every other case step() returns
true" fails: a fetched `ERR` instruction (cell `1024`) is neither a falsy
fetch nor a halt, yet `step` throws instead of returning `true`. -/
theorem step_returns_claim_cex : ¬ stepFalseClaim := by
  intro hclaim
  have h2 := (hclaim exErrState).2 (by decide)
  exact absurd h2 (by decide)

/-- **C1 (amended).**  `step` returns `false` iff the fetched cell is
falsy/zero (including an out-of-range fetch) or the fetched nonzero cell
decodes to the halt opcode; in every other case it returns `true`, except
that a decoded `ERR` opcode or an opcode outside the recognized set makes it
throw instead of returning. -/
theorem step_return_contract (s : InterpreterState) :
    (continueFlag (step s) = some false ↔ stopCondition s) ∧
    (¬ stopCondition s → recognizedOpcode (decodedOpcode (fetchCell s)) →
      decodedOpcode (fetchCell s) ≠ Opcode.ERR → continueFlag (step s) = some true) ∧
    (¬ stopCondition s →
      (decodedOpcode (fetchCell s) = Opcode.ERR ∨
        ¬ recognizedOpcode (decodedOpcode (fetchCell s))) →
      continueFlag (step s) = none) := by
  by_cases hz : fetchCell s = 0
  · have hstep := step_of_fetch_zero s hz
    refine ⟨?_, ?_, ?_⟩
    · rw [hstep]
      simp [continueFlag, stopCondition, hz]
    · intro hns _ _
      exact absurd (Or.inl hz) hns
    · intro hns _
      exact absurd (Or.inl hz) hns
  · have hstep := step_of_fetch_ne_zero s hz
    have hIR : (decodedState s).instructionRegister = decodedOpcode (fetchCell s) := rfl
    refine ⟨?_, ?_, ?_⟩
    · constructor
      · intro hf
        rw [hstep] at hf
        rcases hE : execute (decodedState s) with msg | tb
        · rw [hE] at hf
          simp [continueFlag] at hf
        · obtain ⟨t, b⟩ := tb
          rw [hE] at hf
          simp [continueFlag] at hf
          subst hf
          have hshape := execute_ok_false _ _ hE
          rw [hIR] at hshape
          exact Or.inr hshape.1
      · intro hstop
        rcases hstop with h0 | hH
        · exact absurd h0 hz
        · have hhlt : (decodedState s).instructionRegister = Opcode.HLT := by
            rw [hIR]; exact hH
          rw [hstep, execute_of_hlt _ hhlt]
          rfl
    · intro hns hrec hne
      rw [hstep]
      rcases hE : execute (decodedState s) with msg | tb
      · have hshape := execute_error_shape _ _ hE
        rw [hIR] at hshape
        rcases hshape with h4 | hnr
        · exact absurd h4 hne
        · exact absurd hrec hnr
      · obtain ⟨t, b⟩ := tb
        cases b
        · have hshape := execute_ok_false _ _ hE
          rw [hIR] at hshape
          exact absurd (Or.inr hshape.1) hns
        · rfl
    · intro hns hbad
      rw [hstep]
      rcases hE : execute (decodedState s) with msg | tb
      · rfl
      · obtain ⟨t, b⟩ := tb
        have hshape := execute_ok_shape _ _ _ hE
        rw [hIR] at hshape
        rcases hbad with h4 | hnr
        · exact absurd h4 hshape.2
        · exact absurd hshape.1 hnr

/-- Witness for `step_return_contract`: an `ADD` fetch returns `true`, an
`ERR` fetch throws. -/
theorem step_return_contract_witness :
    continueFlag (step exAddState) = some true ∧ continueFlag (step exErrState) = none :=
  ⟨(step_return_contract exAddState).2.1 (by decide) (by decide) (by decide),
   (step_return_contract exErrState).2.2 (by decide) (by decide)⟩

/-! ## Claim C2 -/

/-- **C2.**  When `step` fetches a nonzero cell at program counter `p`, the
counter is incremented to `p + 1` before the execute phase; a
non-branching instruction leaves it at `p + 1`, and a branch whose
condition holds (`BRA` always, `BRZ` on a zero accumulator, `BRP` on a
non-negative accumulator) overwrites it with the decoded address-register
value. -/
theorem step_pc_update (s t : InterpreterState) (b : Bool)
    (h1 : fetchCell s ≠ 0) (h2 : step s = Except.ok (t, b)) :
    t.programCounter =
      if branchTaken (decodedOpcode (fetchCell s)) s.accumulator
      then decodedOperand (fetchCell s)
      else s.programCounter + 1 := by
  rw [step_of_fetch_ne_zero s h1] at h2
  have hpc := execute_pc _ _ _ h2
  simpa [decodedState] using hpc

/-- Witness for `step_pc_update`: a taken `BRA 3` lands the program counter
on `3`. -/
theorem step_pc_update_witness : exBraNext.programCounter = 3 :=
  (step_pc_update exBraState exBraNext true (by decide) (by decide)).trans (by decide)

/-! ## Claim C8 -/

/-- **C8.**  When `step` fetches a nonzero cell whose decoded opcode is the
`ERR` opcode or any value outside the recognized opcode set, it throws
rather than returning; execution does not continue past such a cell. -/
theorem step_fatal_on_err (s : InterpreterState)
    (h1 : fetchCell s ≠ 0)
    (h2 : decodedOpcode (fetchCell s) = Opcode.ERR ∨
      ¬ recognizedOpcode (decodedOpcode (fetchCell s))) :
    raisesError (step s) = true := by
  rw [step_of_fetch_ne_zero s h1]
  have hIR : (decodedState s).instructionRegister = decodedOpcode (fetchCell s) := rfl
  rcases hE : execute (decodedState s) with msg | tb
  · rfl
  · obtain ⟨t, b⟩ := tb
    have hshape := execute_ok_shape _ _ _ hE
    rw [hIR] at hshape
    rcases h2 with h4 | hnr
    · exact absurd h4 hshape.2
    · exact absurd hshape.1 hnr

/-- Witness for `step_fatal_on_err`: fetching the `ERR` cell `1024` throws. -/
theorem step_fatal_on_err_witness : raisesError (step exErrState) = true :=
  step_fatal_on_err exErrState (by decide) (Or.inl (by decide))

/-! ## Claim C9 -/

/-- **C9.**  A returning `step` whose decoded opcode is not `STA` leaves
every memory cell unchanged; a `STA` step writes exactly the single cell
indexed by the (decoded) address register with the accumulator's value. -/
theorem step_memory_frame (s t : InterpreterState) (b : Bool)
    (h : step s = Except.ok (t, b)) (i : Int) :
    memGet t.memory i =
      if fetchCell s ≠ 0 ∧ decodedOpcode (fetchCell s) = Opcode.STA ∧
          i = decodedOperand (fetchCell s)
      then some s.accumulator
      else memGet s.memory i := by
  by_cases hz : fetchCell s = 0
  · rw [step_of_fetch_zero s hz] at h
    simp only [Except.ok.injEq, Prod.mk.injEq] at h
    obtain ⟨rfl, rfl⟩ := h
    rw [if_neg (by tauto)]
  · rw [step_of_fetch_ne_zero s hz] at h
    have hm := execute_mem _ _ _ h
    have hIR : (decodedState s).instructionRegister = decodedOpcode (fetchCell s) := rfl
    have hmem : (decodedState s).memory = s.memory := rfl
    have hacc : (decodedState s).accumulator = s.accumulator := rfl
    have har : (decodedState s).addressRegister = decodedOperand (fetchCell s) := rfl
    rw [hIR, hmem, hacc, har] at hm
    by_cases hSTA : decodedOpcode (fetchCell s) = Opcode.STA
    · rw [if_pos hSTA] at hm
      rw [hm, memGet_memSet _ _ _ _ (decodedOperand_nonneg (fetchCell s))]
      by_cases hi : i = decodedOperand (fetchCell s)
      · rw [if_pos hi, if_pos ⟨hz, hSTA, hi⟩]
      · rw [if_neg hi, if_neg (by tauto)]
    · rw [if_neg hSTA] at hm
      rw [hm, if_neg (by tauto)]

/-- Witness for `step_memory_frame`: the `STA 0` step writes accumulator
value `7` into cell `0`. -/
theorem step_memory_frame_witness : memGet exStaNext.memory 0 = some 7 :=
  (step_memory_frame exStaState exStaNext true (by decide) 0).trans (by decide)

/-! ## Claim C10 -/

/-- **C10.**  The halt instruction encodes to the cell value `0` (with the
operand absent or `0`), the cell the `appendHalt` option writes right after
the program is exactly that zero cell, and `step` stops on a zero fetch
through the falsy check, before any decode, leaving the state untouched. -/
theorem halt_encodes_zero (options : InterpreterOptions) (mem : List (Option Int))
    (s : InterpreterState) (h1 : options.appendHalt = true) (h2 : fetchCell s = 0) :
    encode { opcode := Opcode.HLT, operand := none } = 0 ∧
    encode { opcode := Opcode.HLT, operand := some 0 } = 0 ∧
    memGet (initialise options mem) (options.program.length : Int) = some 0 ∧
    step s = Except.ok (s, false) := by
  refine ⟨by decide, by decide, ?_, step_of_fetch_zero s h2⟩
  simp only [initialise, h1, if_true]
  rw [memGet_memSet _ _ _ _ (by omega : (0 : Int) ≤ (options.program.length : Int))]
  rw [if_pos rfl]
  decide

/-- Witness for `halt_encodes_zero`: loading `[ADD 2]` with `appendHalt`
leaves cell `1` equal to `some 0`, and `step` on an empty memory halts. -/
theorem halt_encodes_zero_witness :
    memGet (initialise exHaltOptions (initialMemory 4)) 1 = some 0 ∧
    step exZeroState = Except.ok (exZeroState, false) :=
  ⟨(halt_encodes_zero exHaltOptions (initialMemory 4) exZeroState rfl (by decide)).2.2.1,
   (halt_encodes_zero exHaltOptions (initialMemory 4) exZeroState rfl (by decide)).2.2.2⟩

/-! ## Claims C3 and C4 -/

/-- **C3, counterexample.**  The encoder does **not** mask the operand with
`0xFF`: for `{opcode 2, operand 256}` the code computes
`(2 << 8) | 256 = 768`, while the claimed formula `(2 << 8) | (256 & 0xFF)`
gives `512`. -/
theorem encode_mask_cex :
    encode { opcode := 2, operand := some 256 } = 768 ∧
    jsOr (jsShl 2 8) (jsAnd 256 255) = 512 ∧
    encode { opcode := 2, operand := some 256 } ≠ jsOr (jsShl 2 8) (jsAnd 256 255) := by
  decide

set_option maxRecDepth 40000 in
/-- **C3 (amended).**  The encoder packs an instruction as
`(opcode << 8) | (operand || 0)` with no `& 0xFF` mask on the operand; for
operands in `0..255` this coincides with the claimed
`(opcode << 8) | (operand & 0xFF)`.  The decoder recovers
`opcode = (cell & 0xFF00) >> 8` and `operand = cell & 0x00FF` as claimed. -/
theorem encode_decode_formulas (i : Instruction) (c o p : Int)
    (h1 : 0 ≤ p) (h2 : p ≤ 255) :
    encode i = jsOr (jsShl i.opcode 8) (i.operand.getD 0) ∧
    encode { opcode := o, operand := some p } = jsOr (jsShl o 8) (jsAnd p 255) ∧
    decode c = { opcode := jsShr (jsAnd c 65280) 8, operand := some (jsAnd c 255) } := by
  refine ⟨rfl, ?_, rfl⟩
  have key : ∀ q : Fin 256, jsAnd ((q.val : Nat) : Int) 255 = ((q.val : Nat) : Int) := by
    decide
  have key2 : ∀ n : Nat, n < 256 → jsAnd ((n : Nat) : Int) 255 = ((n : Nat) : Int) :=
    fun n hn => key ⟨n, hn⟩
  have hp : p = ((p.toNat : Nat) : Int) := by omega
  show jsOr (jsShl o 8) p = jsOr (jsShl o 8) (jsAnd p 255)
  rw [hp, key2 p.toNat (by omega)]

/-- Witness for `encode_decode_formulas` at operand `200`. -/
theorem encode_decode_formulas_witness :
    encode { opcode := 1, operand := some 200 } = jsOr (jsShl 1 8) (jsAnd 200 255) :=
  (encode_decode_formulas { opcode := 0, operand := none } 0 1 200
    (by decide) (by decide)).2.1

set_option maxRecDepth 100000 in
/-- **C4.**  For every opcode `o` in `0..9` and operand `p` in `0..255`,
decoding the encoding of `{opcode o, operand p}` yields `{opcode o,
operand p}` back. -/
theorem encode_decode_roundtrip (o p : Int)
    (h1 : 0 ≤ o) (h2 : o ≤ 9) (h3 : 0 ≤ p) (h4 : p ≤ 255) :
    decode (encode { opcode := o, operand := some p }) = { opcode := o, operand := some p } := by
  have base : ∀ a : Fin 10, ∀ b : Fin 256,
      decode (encode { opcode := ((a.val : Nat) : Int), operand := some ((b.val : Nat) : Int) }) =
        { opcode := ((a.val : Nat) : Int), operand := some ((b.val : Nat) : Int) } := by
    decide
  have ho : o = ((o.toNat : Nat) : Int) := by omega
  have hp : p = ((p.toNat : Nat) : Int) := by omega
  rw [ho, hp]
  exact base ⟨o.toNat, by omega⟩ ⟨p.toNat, by omega⟩

/-- Witness for `encode_decode_roundtrip` at `{opcode 3, operand 77}`. -/
theorem encode_decode_roundtrip_witness :
    decode (encode { opcode := 3, operand := some 77 }) = { opcode := 3, operand := some 77 } :=
  encode_decode_roundtrip 3 77 (by decide) (by decide) (by decide) (by decide)

/-! ## String primitives for the translator (`src/parser/Parser.ts`)

JavaScript string methods are modelled over the character list `String.data`
(all inputs are ASCII here, where `trim`/`toUpperCase`/`toLowerCase` and
Lean's character predicates agree). -/

/-- JavaScript `String.prototype.trim`. -/
def strTrim (s : String) : String :=
  String.mk (((s.data.dropWhile Char.isWhitespace).reverse.dropWhile Char.isWhitespace).reverse)

/-- JavaScript `String.prototype.toUpperCase` (ASCII). -/
def strToUpper (s : String) : String := String.mk (s.data.map Char.toUpper)

/-- JavaScript `String.prototype.toLowerCase` (ASCII). -/
def strToLower (s : String) : String := String.mk (s.data.map Char.toLower)

/-- Split a character list at every character satisfying `p` (empty pieces
between adjacent separators are kept, as JavaScript `split` keeps them). -/
def splitOnPred (p : Char → Bool) : List Char → List (List Char)
  | [] => [[]]
  | c :: cs =>
    match splitOnPred p cs with
    | r :: rs => if p c then [] :: r :: rs else (c :: r) :: rs
    | [] => [[]]

/-- Fuel-driven worker for splitting on a non-empty separator sequence; the
fuel is the length of the remaining input, which bounds the recursion since
every step consumes at least one character. -/
def splitSeqAux (sep : List Char) : Nat → List Char → List Char → List (List Char)
  | 0, cs, cur => [cur.reverse ++ cs]
  | _ + 1, [], cur => [cur.reverse]
  | fuel + 1, c :: rest, cur =>
    if sep.isPrefixOf (c :: rest) then
      cur.reverse :: splitSeqAux sep fuel (List.drop (sep.length - 1) rest) []
    else
      splitSeqAux sep fuel rest (c :: cur)

/-- JavaScript `String.prototype.split` with a string separator: an empty
separator splits into single characters (and the empty string into `[]`),
otherwise the input is cut at every occurrence of the separator. -/
def jsSplit (s : String) (sep : String) : List String :=
  if sep.data.isEmpty then s.data.map (fun c => String.mk [c])
  else (splitSeqAux sep.data s.data.length s.data []).map String.mk

/-- `line.split(/\s+/)` on an already-trimmed line: cut at whitespace and
drop the empty pieces produced by runs of whitespace. -/
def tokenize (line : String) : List String :=
  ((splitOnPred Char.isWhitespace line.data).filter (fun t => !t.isEmpty)).map String.mk

/-- Decimal digit accumulator for `parseInt`. -/
def decimalVal (ds : List Char) : Nat := ds.foldl (fun a c => 10 * a + (c.toNat - 48)) 0

def isHexDigitChar (c : Char) : Bool :=
  c.isDigit || ('a' ≤ c && c ≤ 'f') || ('A' ≤ c && c ≤ 'F')

def hexDigitVal (c : Char) : Nat :=
  if c.isDigit then c.toNat - 48
  else if 'a' ≤ c && c ≤ 'f' then c.toNat - 87
  else c.toNat - 55

def hexVal (ds : List Char) : Nat := ds.foldl (fun a c => 16 * a + hexDigitVal c) 0

/-- JavaScript `parseInt(s)` (radix auto-detection): skip leading whitespace,
read an optional sign, then either a `0x`/`0X` hexadecimal prefix or a run
of decimal digits, ignoring any trailing garbage; `none` is `NaN`. -/
def jsParseInt (s : String) : Option Int :=
  let stripped := s.data.dropWhile Char.isWhitespace
  let signed : Int × List Char :=
    match stripped with
    | '-' :: rest => (-1, rest)
    | '+' :: rest => (1, rest)
    | _ => (1, stripped)
  match signed.2 with
  | '0' :: x :: rest =>
    if x = 'x' ∨ x = 'X' then
      let hs := rest.takeWhile isHexDigitChar
      if hs.isEmpty then none else some (signed.1 * (hexVal hs : Int))
    else
      some (signed.1 * (decimalVal (('0' :: x :: rest).takeWhile Char.isDigit) : Int))
  | _ =>
    let ds := signed.2.takeWhile Char.isDigit
    if ds.isEmpty then none else some (signed.1 * (decimalVal ds : Int))

/-! ## The translator proper -/

structure CommentOptions where
  enabled : Bool
  sequence : String
deriving DecidableEq, Repr

structure SplitOptions where
  enabled : Bool
  sequence : String
deriving DecidableEq, Repr

structure ParserOptions where
  program : String
  comments : CommentOptions
  splitLines : SplitOptions
deriving DecidableEq, Repr

/-- The intermediate instruction of the first pass: the operand may be a
number or a pending label reference (a string). -/
structure IntermediaryInstruction where
  opcode : Int
  operand : Option (Int ⊕ String)
deriving DecidableEq, Repr

structure ParserResult where
  instructions : List Instruction
  labels : List (String × Nat)
deriving DecidableEq, Repr

/-- The name→value entries of the `Opcode` enum, as `Opcode[name]` resolves
them.  (A TypeScript numeric enum object also carries the reverse
value→name entries, so a purely numeric token such as `"7"` would resolve
to a *string* at runtime; no claim involves numeric opcode-name tokens, and
the model covers the name keys.) -/
def opcodeEntries : List (String × Int) :=
  [("HLT", Opcode.HLT), ("ADD", Opcode.ADD), ("SUB", Opcode.SUB), ("STA", Opcode.STA),
   ("ERR", Opcode.ERR), ("LDA", Opcode.LDA), ("BRA", Opcode.BRA), ("BRZ", Opcode.BRZ),
   ("BRP", Opcode.BRP), ("INP", Opcode.INP), ("OUT", Opcode.OUT), ("OTC", Opcode.OTC),
   ("DAT", Opcode.DAT)]

/-- `findOpcode`: `Opcode[opcodeName.toUpperCase()]`. -/
def findOpcode (opcodeName : String) : Option Int :=
  (opcodeEntries.find? (fun e => e.1 == strToUpper opcodeName)).map (fun e => e.2)

/-- `testLabel`: the regular expression `^[a-zA-Z_][a-zA-Z0-9_]*$`. -/
def testLabel (labelName : String) : Bool :=
  match labelName.data with
  | [] => false
  | c :: cs => (c.isAlpha || c == '_') && cs.all (fun d => d.isAlphanum || d == '_')

/-- `result.labels.has(label)`. -/
def labelsHas (labels : List (String × Nat)) (name : String) : Bool :=
  labels.any (fun e => e.1 == name)

/-- `result.labels.get(label)`. -/
def labelsGet (labels : List (String × Nat)) (name : String) : Option Nat :=
  (labels.find? (fun e => e.1 == name)).map (fun e => e.2)

/-- The `handleLabel` helper: a syntactically valid, not-yet-present label is
bound to `instructions.length` and the call reports success; otherwise the
table is unchanged and the call reports failure (both call sites discard
this flag). -/
def handleLabel (labels : List (String × Nat)) (position : Nat) (label : String) :
    List (String × Nat) × Bool :=
  if testLabel label && !labelsHas labels label then
    (labels ++ [(label, position)], true)
  else
    (labels, false)

/-- The `handleOperand` helper: a token parsing as an integer is a numeric
operand, otherwise a token with valid label syntax is a pending reference,
otherwise the operand is invalid (`undefined`). -/
def handleOperand (operand : String) : Option (Int ⊕ String) :=
  match jsParseInt operand with
  | some n => some (Sum.inl n)
  | none => if testLabel operand then some (Sum.inr operand) else none

/-- The per-line mutable variables of `Parser.parse`'s tokenising loop:
`rawOpcode`, `opcode`, `operand`, `errored`, together with the (possibly
updated) label table. -/
structure LineOutcome where
  rawOpcode : Option String
  opcode : Option Int
  operand : Option (Int ⊕ String)
  errored : Bool
  labels : List (String × Nat)
deriving DecidableEq, Repr

/-- The `switch (tokens.length)` classifier.  One token must be an opcode
name.  With two tokens, `tokens[0]` is tried as an opcode first (operand
form); if it fails, `tokens[1]` is tried with `tokens[0]` as a label
definition (whose `handleLabel` result is discarded).  With three tokens,
`tokens[1]` must be an opcode (else the opcode is set to `ERR`), then the
operand `tokens[2]` is resolved, and only afterwards is the label
`tokens[0]` handled (again with the result discarded).  Any other token
count errors. -/
def classifyTokens (labels : List (String × Nat)) (position : Nat) (tokens : List String) :
    LineOutcome :=
  match tokens with
  | [t0] =>
    match findOpcode t0 with
    | some o => { rawOpcode := some t0, opcode := some o, operand := none, errored := false, labels := labels }
    | none => { rawOpcode := some t0, opcode := none, operand := none, errored := true, labels := labels }
  | [t0, t1] =>
    match findOpcode t0 with
    | some o =>
      match handleOperand t1 with
      | some v => { rawOpcode := some t0, opcode := some o, operand := some v, errored := false, labels := labels }
      | none => { rawOpcode := some t0, opcode := some o, operand := none, errored := true, labels := labels }
    | none =>
      match findOpcode t1 with
      | some o =>
        { rawOpcode := some t1, opcode := some o, operand := none, errored := false,
          labels := (handleLabel labels position t0).1 }
      | none => { rawOpcode := some t1, opcode := none, operand := none, errored := true, labels := labels }
  | [t0, t1, t2] =>
    match findOpcode t1 with
    | none => { rawOpcode := none, opcode := some Opcode.ERR, operand := none, errored := false, labels := labels }
    | some o =>
      match handleOperand t2 with
      | some v =>
        { rawOpcode := some t2, opcode := some o, operand := some v, errored := false,
          labels := (handleLabel labels position t0).1 }
      | none => { rawOpcode := some t2, opcode := some o, operand := none, errored := true, labels := labels }
  | _ => { rawOpcode := none, opcode := none, operand := none, errored := true, labels := labels }

/-- The `// Handle the opcode` switch: a parsed `ERR` opcode marks the line
errored (the `undefined` case only logs). -/
def handleOpcodeStage (v : LineOutcome) : LineOutcome :=
  if v.opcode = some Opcode.ERR then { v with errored := true } else v

/-- Whether an opcode is in the `ADD`/`SUB`/`STA`/`LDA`/`BRA`/`BRZ`/`BRP`
group whose missing operand is a translation error. -/
def requiresOperand (o : Int) : Bool :=
  o == Opcode.ADD || o == Opcode.SUB || o == Opcode.STA || o == Opcode.LDA ||
  o == Opcode.BRA || o == Opcode.BRZ || o == Opcode.BRP

/-- The `switch (rawOpcode?.toLowerCase())` default for the shared I/O
opcode: the mnemonic spelling selects the sub-mode operand. -/
def defaultIOOperand (rawOpcode : Option String) : Option (Int ⊕ String) :=
  match rawOpcode with
  | some r =>
    let rl := strToLower r
    if rl == "inp" then some (Sum.inl IOCode.INPUT)
    else if rl == "out" then some (Sum.inl IOCode.OUTPUT)
    else if rl == "otc" then some (Sum.inl IOCode.CHAR)
    else none
  | none => none

/-- The `// Handle the operand` switch, entered only when no operand was
produced: operand-requiring opcodes error, the I/O opcode receives its
sub-mode default, every other opcode is left alone. -/
def handleOperandStage (v : LineOutcome) : LineOutcome :=
  match v.operand with
  | some _ => v
  | none =>
    match v.opcode with
    | some o =>
      if requiresOperand o then { v with errored := true }
      else if o == Opcode.INP then { v with operand := defaultIOOperand v.rawOpcode }
      else v
    | none => v

/-- The accumulating state of the tokenising loop. -/
structure ParsePass1State where
  labels : List (String × Nat)
  instructions : List IntermediaryInstruction
  errored : Bool
deriving DecidableEq, Repr

/-- Process one tokenised line: classify, run the opcode and operand
stages, then push either the line's instruction or — when errored — a bare
`ERR` instruction (after which the loop stops).  The `v.opcode.getD
Opcode.ERR` fallback is unreachable: every classifier path leaving the
opcode `undefined` also sets `errored`. -/
def processTokens (st : ParsePass1State) (tokens : List String) : ParsePass1State :=
  let v := classifyTokens st.labels st.instructions.length tokens
  let v := handleOpcodeStage v
  let v := handleOperandStage v
  if v.errored then
    { labels := v.labels
      instructions := st.instructions ++ [{ opcode := Opcode.ERR, operand := none }]
      errored := true }
  else
    { labels := v.labels
      instructions := st.instructions ++ [{ opcode := v.opcode.getD Opcode.ERR, operand := v.operand }]
      errored := false }

/-- One iteration of the tokenising loop: trim the line, skip it when empty,
otherwise process its whitespace tokens. -/
def parseLine (st : ParsePass1State) (rawLine : String) : ParsePass1State :=
  let line := strTrim rawLine
  if line.data.isEmpty then st
  else processTokens st (tokenize line)

/-- The `for (...; i < lines.length && !errored; ...)` loop (the `break`
after pushing an `ERR` instruction stops it early). -/
def parseLines (st : ParsePass1State) : List String → ParsePass1State
  | [] => st
  | l :: ls =>
    let st' := parseLine st l
    if st'.errored then st' else parseLines st' ls

/-- One step of the splice loop preparing split lines: a line is replaced by
its parts when splitting it on the sequence yields more than one part. -/
def expandLine (sequence : String) (l : String) : List String :=
  let content := jsSplit l sequence
  if content.length > 1 then content else [l]

/-- The line preparation of `parse`: split the program on newlines, expand
lines on the split sequence when enabled, then truncate each line at the
first comment sequence when comments are enabled. -/
def prepareLines (options : ParserOptions) : List String :=
  let lines := jsSplit options.program "\n"
  let lines :=
    if options.splitLines.enabled then (lines.map (expandLine options.splitLines.sequence)).flatten
    else lines
  if options.comments.enabled then
    lines.map (fun line => (jsSplit line options.comments.sequence).headD "")
  else lines

/-- The second pass (`instructions.forEach`): a pending string operand found
in the label table becomes its recorded position; an absent one turns the
whole instruction into a bare `ERR`; numeric (or absent) operands pass
through unchanged. -/
def resolvePass (labels : List (String × Nat)) : List IntermediaryInstruction → List Instruction
  | [] => []
  | instruction :: rest =>
    let resolved : Instruction :=
      match instruction.operand with
      | some (Sum.inr name) =>
        match labelsGet labels name with
        | some index => { opcode := instruction.opcode, operand := some (index : Int) }
        | none => { opcode := Opcode.ERR, operand := none }
      | some (Sum.inl n) => { opcode := instruction.opcode, operand := some n }
      | none => { opcode := instruction.opcode, operand := none }
    resolved :: resolvePass labels rest

/-- `Parser.parse`: prepare the lines, run the tokenising loop, then build
the final instructions by resolving pending label references. -/
def parse (options : ParserOptions) : ParserResult :=
  let st := parseLines { labels := [], instructions := [], errored := false } (prepareLines options)
  { instructions := resolvePass st.labels st.instructions, labels := st.labels }

/-! ## Stage lemmas for the tokenising loop -/

theorem handleLabel_success (labels : List (String × Nat)) (position : Nat) (label : String)
    (h1 : testLabel label = true) (h2 : labelsHas labels label = false) :
    handleLabel labels position label = (labels ++ [(label, position)], true) := by
  unfold handleLabel
  rw [if_pos (by simp [h1, h2])]

theorem handleLabel_fail (labels : List (String × Nat)) (position : Nat) (label : String)
    (h : ¬ (testLabel label = true ∧ labelsHas labels label = false)) :
    handleLabel labels position label = (labels, false) := by
  unfold handleLabel
  rw [if_neg]
  intro hc
  rw [Bool.and_eq_true] at hc
  exact h ⟨hc.1, by simpa using hc.2⟩

theorem handleOpcodeStage_labels (v : LineOutcome) :
    (handleOpcodeStage v).labels = v.labels := by
  unfold handleOpcodeStage
  split_ifs <;> rfl

theorem handleOperandStage_labels (v : LineOutcome) :
    (handleOperandStage v).labels = v.labels := by
  unfold handleOperandStage
  cases hop : v.operand with
  | some _ => rfl
  | none =>
    cases hoc : v.opcode with
    | none => rfl
    | some o =>
      dsimp only []
      split_ifs <;> rfl

theorem handleOpcodeStage_errored (v : LineOutcome) (h : v.errored = true) :
    (handleOpcodeStage v).errored = true := by
  unfold handleOpcodeStage
  split_ifs <;> simp [h]

theorem handleOperandStage_errored (v : LineOutcome) (h : v.errored = true) :
    (handleOperandStage v).errored = true := by
  unfold handleOperandStage
  cases hop : v.operand with
  | some _ => exact h
  | none =>
    cases hoc : v.opcode with
    | none => exact h
    | some o =>
      dsimp only []
      split_ifs <;> simp [h]

/-! ## Claim C5 -/

/-- Parser options with comments and line-splitting disabled, used by the
concrete translator counterexamples. -/
def plainOptions (program : String) : ParserOptions :=
  { program := program
    comments := { enabled := false, sequence := "" }
    splitLines := { enabled := false, sequence := "" } }

/-- **C5, counterexample.**  The line `loop add @x` defines the
syntactically valid label `loop` and then fails operand resolution
(`@x` is neither an integer nor a valid label reference), stopping
translation at that line — yet the label table comes out **empty**: in the
3-token case `handleLabel` runs only after the operand resolves, so the
label is not recorded, contrary to the claim. -/
theorem label_on_failed_operand_cex :
    testLabel "loop" = true ∧
    handleOperand "@x" = none ∧
    parse (plainOptions "loop add @x") =
      { instructions := [{ opcode := Opcode.ERR, operand := none }], labels := [] } := by
  decide

/-- **C5 (amended).**  Label registration on a failing line depends on the
line shape: on a 2-token label+opcode line the label **is** recorded (at
the instruction position before the failing line's `ERR` instruction is
added) even when the line then fails the required-operand check; on a
3-token line the operand is resolved **before** the label is handled, so a
line failing operand resolution stops translation with no label
recorded. -/
theorem label_registration_order (st : ParsePass1State) (lab opTok operTok : String) (o : Int)
    (hlab : testLabel lab = true) (hfresh : labelsHas st.labels lab = false) :
    (findOpcode lab = none → findOpcode opTok = some o → requiresOperand o = true →
      processTokens st [lab, opTok] =
        { labels := st.labels ++ [(lab, st.instructions.length)]
          instructions := st.instructions ++ [{ opcode := Opcode.ERR, operand := none }]
          errored := true }) ∧
    (findOpcode opTok = some o → handleOperand operTok = none →
      processTokens st [lab, opTok, operTok] =
        { labels := st.labels
          instructions := st.instructions ++ [{ opcode := Opcode.ERR, operand := none }]
          errored := true }) := by
  constructor
  · intro h1 h2 hreq
    have ho : o = 1 ∨ o = 2 ∨ o = 3 ∨ o = 5 ∨ o = 6 ∨ o = 7 ∨ o = 8 := by
      simp [requiresOperand, Opcode.ADD, Opcode.SUB, Opcode.STA, Opcode.LDA, Opcode.BRA,
        Opcode.BRZ, Opcode.BRP] at hreq
      tauto
    have hlabel := handleLabel_success st.labels st.instructions.length lab hlab hfresh
    rcases ho with rfl | rfl | rfl | rfl | rfl | rfl | rfl <;>
      simp [processTokens, classifyTokens, handleOpcodeStage, handleOperandStage,
        requiresOperand, h1, h2, hlabel, Opcode.ERR, Opcode.ADD, Opcode.SUB, Opcode.STA,
        Opcode.LDA, Opcode.BRA, Opcode.BRZ, Opcode.BRP, Opcode.INP]
  · intro h2 hop
    have hv : classifyTokens st.labels st.instructions.length [lab, opTok, operTok] =
        { rawOpcode := some operTok, opcode := some o, operand := none, errored := true
          labels := st.labels } := by
      simp [classifyTokens, h2, hop]
    simp only [processTokens, hv]
    have herr : (handleOperandStage (handleOpcodeStage
        { rawOpcode := some operTok, opcode := some o, operand := none, errored := true
          labels := st.labels })).errored = true :=
      handleOperandStage_errored _ (handleOpcodeStage_errored _ rfl)
    have hlabs : (handleOperandStage (handleOpcodeStage
        { rawOpcode := some operTok, opcode := some o, operand := none, errored := true
          labels := st.labels })).labels = st.labels := by
      rw [handleOperandStage_labels, handleOpcodeStage_labels]
    rw [if_pos herr, hlabs]

/-- Witness for `label_registration_order`: `loop add` records the label and
errors; `loop add @x` errors with no label recorded. -/
theorem label_registration_order_witness :
    processTokens { labels := [], instructions := [], errored := false } ["loop", "add"] =
      { labels := [("loop", 0)]
        instructions := [{ opcode := Opcode.ERR, operand := none }]
        errored := true } ∧
    processTokens { labels := [], instructions := [], errored := false } ["loop", "add", "@x"] =
      { labels := []
        instructions := [{ opcode := Opcode.ERR, operand := none }]
        errored := true } := by
  have h := label_registration_order { labels := [], instructions := [], errored := false }
    "loop" "add" "@x" 1 (by decide) (by decide)
  exact ⟨h.1 (by decide) (by decide) (by decide), h.2 (by decide) (by decide)⟩

/-! ## Claim C6 -/

/-- **C6, counterexample.**  In `x hlt\nx hlt` the second line's label `x`
duplicates an already-defined label, yet translation does **not** stop and
no `ERR` instruction appears: both `HLT` instructions are emitted and
parsing ran to the end, because both call sites discard `handleLabel`'s
failure result. -/
theorem invalid_label_continues_cex :
    testLabel "x" = true ∧
    parse (plainOptions "x hlt\nx hlt") =
      { instructions := [{ opcode := Opcode.HLT, operand := none },
                         { opcode := Opcode.HLT, operand := none }]
        labels := [("x", 0)] } := by
  decide

/-- **C6 (amended).**  A syntactically invalid or duplicate label definition
does **not** stop translation and produces no `ERR` instruction: the
failure of `handleLabel` is logged but its result is discarded at both
call sites, so the label is simply not recorded, the line's instruction is
emitted normally, and further lines continue to be processed. -/
theorem invalid_label_ignored (st : ParsePass1State) (lab opTok operTok : String)
    (o : Int) (v : Int ⊕ String)
    (hlab : ¬ (testLabel lab = true ∧ labelsHas st.labels lab = false)) :
    (findOpcode lab = none → findOpcode opTok = some o →
      (o = Opcode.HLT ∨ o = Opcode.DAT) →
      processTokens st [lab, opTok] =
        { labels := st.labels
          instructions := st.instructions ++ [{ opcode := o, operand := none }]
          errored := false }) ∧
    (findOpcode opTok = some o → handleOperand operTok = some v → o ≠ Opcode.ERR →
      processTokens st [lab, opTok, operTok] =
        { labels := st.labels
          instructions := st.instructions ++ [{ opcode := o, operand := some v }]
          errored := false }) := by
  have hlabel := handleLabel_fail st.labels st.instructions.length lab hlab
  constructor
  · intro h1 h2 ho
    rcases ho with rfl | rfl <;>
      simp [processTokens, classifyTokens, handleOpcodeStage, handleOperandStage,
        requiresOperand, defaultIOOperand, h1, h2, hlabel, Opcode.HLT, Opcode.DAT,
        Opcode.ERR, Opcode.ADD, Opcode.SUB, Opcode.STA, Opcode.LDA, Opcode.BRA,
        Opcode.BRZ, Opcode.BRP, Opcode.INP]
  · intro h2 hop hne
    have hv : classifyTokens st.labels st.instructions.length [lab, opTok, operTok] =
        { rawOpcode := some operTok, opcode := some o, operand := some v, errored := false
          labels := st.labels } := by
      simp [classifyTokens, h2, hop, hlabel]
    simp only [processTokens, hv]
    have hstage : handleOpcodeStage
        { rawOpcode := some operTok, opcode := some o, operand := some v, errored := false
          labels := st.labels } =
        { rawOpcode := some operTok, opcode := some o, operand := some v, errored := false
          labels := st.labels } := by
      unfold handleOpcodeStage
      rw [if_neg]
      simpa [Opcode.ERR] using hne
    rw [hstage]
    rfl

/-- Witness for `invalid_label_ignored`: re-defining `x` before `hlt` leaves
the table unchanged and emits the `HLT` instruction normally. -/
theorem invalid_label_ignored_witness :
    processTokens
      { labels := [("x", 0)]
        instructions := [{ opcode := Opcode.HLT, operand := none }]
        errored := false } ["x", "hlt"] =
      { labels := [("x", 0)]
        instructions := [{ opcode := Opcode.HLT, operand := none },
                         { opcode := Opcode.HLT, operand := none }]
        errored := false } :=
  (invalid_label_ignored
    { labels := [("x", 0)]
      instructions := [{ opcode := Opcode.HLT, operand := none }]
      errored := false }
    "x" "hlt" "" 0 (Sum.inl 0) (by decide)).1 (by decide) (by decide) (Or.inl rfl)

/-! ## Claim C7 -/

theorem resolvePass_length (labels : List (String × Nat))
    (instrs : List IntermediaryInstruction) :
    (resolvePass labels instrs).length = instrs.length := by
  induction instrs with
  | nil => rfl
  | cons head rest ih => simp [resolvePass, ih]

/-- **C7.**  The second pass is pointwise and order/length-preserving: an
instruction whose operand is a pending label name absent from the table is
replaced by a bare `ERR` instruction; a pending name present in the table
is replaced by its recorded position; numeric or absent operands pass
through unchanged.  In particular an unresolved reference never removes or
alters any other instruction. -/
theorem second_pass_pointwise (labels : List (String × Nat))
    (instrs : List IntermediaryInstruction) (i : Nat) :
    (resolvePass labels instrs).length = instrs.length ∧
    (∀ instruction, instrs[i]? = some instruction →
      (∀ name, instruction.operand = some (Sum.inr name) → labelsGet labels name = none →
        (resolvePass labels instrs)[i]? = some { opcode := Opcode.ERR, operand := none }) ∧
      (∀ name index, instruction.operand = some (Sum.inr name) →
        labelsGet labels name = some index →
        (resolvePass labels instrs)[i]? =
          some { opcode := instruction.opcode, operand := some (index : Int) }) ∧
      (∀ n, instruction.operand = some (Sum.inl n) →
        (resolvePass labels instrs)[i]? =
          some { opcode := instruction.opcode, operand := some n }) ∧
      (instruction.operand = none →
        (resolvePass labels instrs)[i]? =
          some { opcode := instruction.opcode, operand := none })) := by
  refine ⟨resolvePass_length labels instrs, ?_⟩
  induction instrs generalizing i with
  | nil =>
    intro instruction hget
    simp at hget
  | cons head rest ih =>
    intro instruction hget
    cases i with
    | zero =>
      simp only [List.getElem?_cons_zero, Option.some.injEq] at hget
      subst hget
      refine ⟨?_, ?_, ?_, ?_⟩
      · intro name hoper hnone
        simp [resolvePass, hoper, hnone]
      · intro name index hoper hsome
        simp [resolvePass, hoper, hsome]
      · intro n hoper
        simp [resolvePass, hoper]
      · intro hoper
        simp [resolvePass, hoper]
    | succ j =>
      have hrec := ih j instruction (by simpa using hget)
      refine ⟨?_, ?_, ?_, ?_⟩
      · intro name hoper hnone
        simpa [resolvePass] using (hrec.1 name hoper hnone)
      · intro name index hoper hsome
        simpa [resolvePass] using (hrec.2.1 name index hoper hsome)
      · intro n hoper
        simpa [resolvePass] using (hrec.2.2.1 n hoper)
      · intro hoper
        simpa [resolvePass] using (hrec.2.2.2 hoper)

/-- Witness for `second_pass_pointwise`: an unresolved `bra b` becomes a
bare `ERR`, a resolved `bra a` becomes `BRA 1`, and the length is kept. -/
theorem second_pass_pointwise_witness :
    (resolvePass [("a", 1)]
      [{ opcode := Opcode.BRA, operand := some (Sum.inr "b") },
       { opcode := Opcode.BRA, operand := some (Sum.inr "a") }]).length = 2 ∧
    (resolvePass [("a", 1)]
      [{ opcode := Opcode.BRA, operand := some (Sum.inr "b") },
       { opcode := Opcode.BRA, operand := some (Sum.inr "a") }])[0]? =
      some { opcode := Opcode.ERR, operand := none } ∧
    (resolvePass [("a", 1)]
      [{ opcode := Opcode.BRA, operand := some (Sum.inr "b") },
       { opcode := Opcode.BRA, operand := some (Sum.inr "a") }])[1]? =
      some { opcode := Opcode.BRA, operand := some 1 } :=
  ⟨(second_pass_pointwise [("a", 1)]
      [{ opcode := Opcode.BRA, operand := some (Sum.inr "b") },
       { opcode := Opcode.BRA, operand := some (Sum.inr "a") }] 0).1,
   ((second_pass_pointwise [("a", 1)]
      [{ opcode := Opcode.BRA, operand := some (Sum.inr "b") },
       { opcode := Opcode.BRA, operand := some (Sum.inr "a") }] 0).2
      { opcode := Opcode.BRA, operand := some (Sum.inr "b") } (by decide)).1 "b" rfl (by decide),
   ((second_pass_pointwise [("a", 1)]
      [{ opcode := Opcode.BRA, operand := some (Sum.inr "b") },
       { opcode := Opcode.BRA, operand := some (Sum.inr "a") }] 1).2
      { opcode := Opcode.BRA, operand := some (Sum.inr "a") } (by decide)).2.1 "a" 1 rfl
      (by decide)⟩
